import Mathlib

/-!
Shallow embedding of `repotest.go`, a CLI utility that locates a `go.work`
workspace descriptor, runs `go test` for every member package, and prints a
sorted summary.  Pure computations (descriptor parsing, label computation,
column widths, line formatting) are translated directly; the filesystem and
the subprocess/analyzer boundary are abstracted as explicit parameters; the
fan-out/fan-in concurrency of `execAllTests` is modelled as a step relation.
-/

namespace Repotest

/-! ### Models of the Go standard-library string primitives used by the code -/

/-- Whitespace recognised by the model of `strings.TrimSpace`.  The Go
function trims all Unicode white space; the inputs handled here (descriptor
lines) are modelled over the ASCII white-space characters. -/
def isSpaceChar (c : Char) : Bool :=
  c == ' ' || c == '\t' || c == '\n' || c == '\r' || c == '\x0b' || c == '\x0c'

/-- Model of Go `strings.TrimSpace`: drop leading and trailing white space. -/
def strTrim (s : String) : String :=
  ⟨((s.toList.dropWhile isSpaceChar).reverse.dropWhile isSpaceChar).reverse⟩

/-- Decides whether the first list of characters leads (starts) the second. -/
def charsLead : List Char → List Char → Bool
  | [], _ => true
  | _ :: _, [] => false
  | a :: as, b :: bs => a == b && charsLead as bs

/-- Model of Go `strings.HasPrefix s p`. -/
def strStartsWith (s p : String) : Bool :=
  charsLead p.toList s.toList

/-- Model of Go `strings.Contains s c` for a one-character needle `c`. -/
def strContainsChar (s : String) (c : Char) : Bool :=
  s.toList.contains c

/-- Helper for `strHasSub`: does `p` occur at some position of the list? -/
def listHasSub (p : List Char) : List Char → Bool
  | [] => charsLead p []
  | c :: cs => charsLead p (c :: cs) || listHasSub p cs

/-- Model of Go `strings.Contains s sub` for an arbitrary needle. -/
def strHasSub (s sub : String) : Bool :=
  listHasSub sub.toList s.toList

/-- Number of UTF-8 bytes of a character, as Go counts them. -/
def charUtf8Size (c : Char) : Nat :=
  if c.val < 0x80 then 1 else if c.val < 0x800 then 2
  else if c.val < 0x10000 then 3 else 4

/-- Model of Go `len(s)` on a string: its UTF-8 byte length. -/
def goLen (s : String) : Nat :=
  (s.toList.map charUtf8Size).sum

/-- Model of Go `filepath.Join a b` on Unix for two elements: empty elements
are dropped, the rest joined with a slash.  `filepath.Clean` is not modelled;
the inputs exercised by the claims are already clean. -/
def filepathJoin (a b : String) : String :=
  if a = "" then b else if b = "" then a else a ++ "/" ++ b

/-- Model of Go `filepath.Dir` on Unix for clean paths: everything up to the
final slash, with the trailing slash removed unless the result is the root;
a path with no slash has directory `"."`. -/
def filepathDir (p : String) : String :=
  let rest := (p.toList.reverse.dropWhile (fun c => !(c == '/'))).dropWhile (fun c => c == '/')
  if p.toList.contains '/' then (if rest = [] then "/" else ⟨rest.reverse⟩) else "."

/-- Model of Go `filepath.Rel base target` on Unix for clean paths, in the
cases the program exercises: a target equal to the base yields `"."`, and a
target below the base yields the path with the `base ++ "/"` part removed.
In the remaining cases Go produces `../` chains or an error; the program
only relativises member paths that live under the workspace root, so those
cases are left as the identity here. -/
def filepathRel (base target : String) : String :=
  if target = base then "."
  else if charsLead (base.toList ++ ['/']) target.toList then
    ⟨target.toList.drop (base.toList.length + 1)⟩
  else target

/-! ### Descriptor parsing (`readWorkspaceFile`) -/

/-- The scanning loop of `readWorkspaceFile`: `cap` is the `beginCapture`
flag.  A line is captured when capture is on and the line does not contain
a `')'`; a line starting with `"use ("` switches capture on; the flag is
never reset. -/
def readWorkspaceAux (path : String) : Bool → List String → List String
  | _, [] => []
  | cap, line :: rest =>
    if cap && !(strContainsChar line ')') then
      filepathJoin path (strTrim line) :: readWorkspaceAux path cap rest
    else if strStartsWith line "use (" then
      readWorkspaceAux path true rest
    else
      readWorkspaceAux path cap rest

/-- Model of `readWorkspaceFile`, applied to the list of lines of the file at
`path/go.work` (the `bufio.Scanner` iteration; file opening and its error
path are not modelled). -/
def readWorkspaceFile (path : String) (lines : List String) : List String :=
  readWorkspaceAux path false lines

/-! ### Workspace discovery (`getWorkspacePaths`) -/

/-- Abstraction of the filesystem seen by `getWorkspacePaths`:
`hasWorkFile d` states that the listing of directory `d` contains an entry
named `go.work` (the code compares `e.Name()` only, never the entry type),
and `workLines d` gives the lines of the file `d/go.work`.  `os.ReadDir`
errors are not modelled. -/
structure GoFS where
  hasWorkFile : String → Bool
  workLines : String → List String

/-- The loop of `getWorkspacePaths`.  Each iteration first looks for a
`go.work` entry in the current directory, then moves to the parent and stops
(returning `("", none)`, the Go `return "", nil`) as soon as the parent path
has byte length 1.  The loop is driven by fuel; each parent is strictly
shorter than its child, so `goLen path + 1` iterations always suffice. -/
def getWorkspacePathsAux (fs : GoFS) : Nat → String → String × Option (List String)
  | 0, _ => ("", none)
  | fuel + 1, path =>
    if fs.hasWorkFile path then
      (path, some (readWorkspaceFile path (fs.workLines path)))
    else if goLen (filepathDir path) = 1 then ("", none)
    else getWorkspacePathsAux fs fuel (filepathDir path)

/-- Model of `getWorkspacePaths`, starting from the current directory `cwd`
(the result of `os.Getwd`, not modelled further). -/
def getWorkspacePaths (fs : GoFS) (cwd : String) : String × Option (List String) :=
  getWorkspacePathsAux fs (goLen cwd + 1) cwd

/-- The chain of directories the discovery loop examines: the start
directory, then successive parents, truncated before any parent of byte
length 1 (on Unix the filesystem root `"/"`). -/
def walkChain : Nat → String → List String
  | 0, _ => []
  | fuel + 1, path =>
    path :: (if goLen (filepathDir path) = 1 then [] else walkChain fuel (filepathDir path))

/-- The directories examined by `getWorkspacePaths` when started at `cwd`. -/
def searchChain (cwd : String) : List String :=
  walkChain (goLen cwd + 1) cwd

/-! ### Test records and analysis -/

/-- Aggregates of the external `testjson.Execution` object that the program
reads: `total` is `Total()`, `errors` is `len(Errors())`, `failed` is
`len(Failed())`, and `elapsedMillis` is `Elapsed()` at millisecond
granularity. -/
structure Execution where
  total : Nat
  errors : Nat
  failed : Nat
  elapsedMillis : Nat
deriving DecidableEq

/-- The `testAnalysis` record: an execution result paired with its label. -/
structure testAnalysis where
  testExec : Execution
  label : String
deriving DecidableEq

/-- Model of `removeRelativePath`: `filepath.Rel` with its error ignored. -/
def removeRelativePath (wPath path : String) : String :=
  filepathRel wPath path

/-- Model of `analyzeTest`.  The external `testjson.ScanTestOutput` is
abstracted as `scan`, which either yields the aggregates of the parsed
output or fails; on failure the Go code calls `log.Panic`, which terminates
the process — modelled as `none`.  The function has no error return. -/
def analyzeTest (scan : String → Option Execution) (wPath path output : String) :
    Option testAnalysis :=
  match scan output with
  | none => none
  | some te => some ⟨te, removeRelativePath wPath path⟩

/-! ### Concurrent execution (`execAllTests`)

Each member path gets one goroutine that computes one record and sends it to
a buffered channel of capacity `len(paths)`; sends therefore never block, a
wait group closes the channel after all workers finish, and the parent
drains it in send order.  A state is the pair (paths whose worker has not
yet sent, records sent so far); one step completes one worker, chosen
nondeterministically.  `f p` is the record worker `p` produces (`none` when
its `analyzeTest` panics, in which case the process dies and no complete
run exists). -/

/-- One scheduling step of the fan-out in `execAllTests`. -/
inductive execStep (f : String → Option testAnalysis) :
    List String × List testAnalysis → List String × List testAnalysis → Prop where
  | send : ∀ (pre post : List String) (sent : List testAnalysis) (p : String)
      (r : testAnalysis), f p = some r →
      execStep f (pre ++ p :: post, sent) (pre ++ post, sent ++ [r])

/-- A complete run of `execAllTests` over `paths` producing `results`:
every worker has fired and the drained channel holds `results`. -/
def execAllTestsRun (f : String → Option testAnalysis) (paths : List String)
    (results : List testAnalysis) : Prop :=
  Relation.ReflTransGen (execStep f) (paths, []) ([], results)

/-! ### Presentation -/

/-- ANSI escape constants from the source. -/
def colorRed : String := "\x1b[31m"

/-- Green ANSI escape. -/
def colorGreen : String := "\x1b[32m"

/-- Yellow ANSI escape. -/
def colorYellow : String := "\x1b[33m"

/-- Reset ANSI escape. -/
def colorReset : String := "\x1b[0m"

/-- Success icon. -/
def iconSuccess : String := colorGreen ++ "✓" ++ colorReset

/-- Failure icon. -/
def iconFailure : String := colorRed ++ "✖" ++ colorReset

/-- Skipped icon. -/
def iconSkipped : String := colorYellow ++ "∅" ++ colorReset

/-- Model of the `fmt` width modifier `%*s`: right-justify `s` in `w`
runes (Go widths count runes). -/
def padLeft (w : Nat) (s : String) : String :=
  ⟨List.replicate (w - s.length) ' '⟩ ++ s

/-- Three-digit decimal fraction for `formatDurationAsSeconds`. -/
def padMillis (n : Nat) : String :=
  if n < 10 then "00" ++ toString n else if n < 100 then "0" ++ toString n else toString n

/-- Model of the external `testjson.FormatDurationAsSeconds` with precision
3, at millisecond granularity: seconds with three decimals and an `s`. -/
def formatDurationAsSeconds (millis : Nat) : String :=
  toString (millis / 1000) ++ "." ++ padMillis (millis % 1000) ++ "s"

/-- Model of `printSummary`: the single line printed for a record, given the
label column width.  Mirrors the three `fmt.Printf` branches of the source:
zero total first, then errors-or-failures, then success. -/
def printSummary (ta : testAnalysis) (labelLen : Nat) : String :=
  if ta.testExec.total = 0 then
    iconSkipped ++ " " ++ padLeft labelLen ta.label ++ "\n"
  else if 0 < ta.testExec.errors ∨ 0 < ta.testExec.failed then
    iconFailure ++ " " ++ padLeft labelLen ta.label ++ "  " ++
      padLeft 3 (toString ta.testExec.total) ++ " tests (" ++
      formatDurationAsSeconds ta.testExec.elapsedMillis ++ ") (" ++
      toString ta.testExec.errors ++ " errors) (" ++
      toString ta.testExec.failed ++ " failed)\n"
  else
    iconSuccess ++ " " ++ padLeft labelLen ta.label ++ "  " ++
      padLeft 3 (toString ta.testExec.total) ++ " tests (" ++
      formatDurationAsSeconds ta.testExec.elapsedMillis ++ ")\n"

/-- Model of `printFailedDetail`.  For a failing record the banner repeat
count is `(80 - len(label)) / 2` with Go integer division (truncation toward
zero, `Int.tdiv`); `strings.Repeat` panics when the count is negative —
modelled as `none`.  The external `testjson.PrintSummary` dump is abstracted
as `dump`.  A non-failing record prints nothing. -/
def printFailedDetail (dump : Execution → String) (ta : testAnalysis) : Option String :=
  if 0 < ta.testExec.errors ∨ 0 < ta.testExec.failed then
    let cnt : Int := Int.tdiv (80 - (goLen ta.label : Int)) 2
    if cnt < 0 then none
    else
      let bar : String := ⟨List.replicate cnt.toNat '='⟩
      some ("\n" ++ colorRed ++ bar ++ "  " ++ ta.label ++ "  " ++ bar ++ colorReset ++
        "\n" ++ dump ta.testExec)
  else some ""

/-- Model of Go `a < b` on strings (byte-lexicographic; on UTF-8 encoded
strings byte order coincides with code-point order) as a non-strict
comparison `≤` used for sorting. -/
def charsLe : List Char → List Char → Bool
  | [], _ => true
  | _ :: _, [] => false
  | a :: as, b :: bs => if a < b then true else if a == b then charsLe as bs else false

/-- Label comparison used by the `sort.Slice` call in `printResults`. -/
def labelLe (a b : testAnalysis) : Bool :=
  charsLe a.label.toList b.label.toList

/-- Model of the presentation order of `printResults`: the records are
sorted in place by label and then printed in order.  Go's `sort.Slice`
guarantees only a permutation ordered by the comparator; insertion sort is
one such refinement.  The early return for an empty input coincides with
sorting the empty list. -/
def printResults (results : List testAnalysis) : List testAnalysis :=
  List.insertionSort (fun a b => labelLe a b = true) results

/-- Model of `getMaxLabel`: fold of the running-maximum update of the
source, then incremented by one to pad the label column. -/
def getMaxLabel (results : List testAnalysis) : Nat :=
  (results.foldl (fun maxLen ta => if maxLen < goLen ta.label then goLen ta.label else maxLen) 0)
    + 1

/-! ### Concrete fixtures used by counterexamples and witnesses -/

/-- A filesystem whose only `go.work` lives in the root directory. -/
def fsRootOnly : GoFS :=
  ⟨fun p => p == "/", fun _ => ["use (", "m", ")"]⟩

/-- A scanner that always succeeds with a fixed execution result. -/
def scanFix : String → Option Execution :=
  fun _ => some ⟨2, 0, 1, 3⟩

/-- A fixed subprocess output function. -/
def outFix : String → String :=
  fun _ => "x"

/-! ### Lemmas about the string primitives -/

/-- A list of characters leads any extension of itself. -/
theorem charsLead_append (p rest : List Char) : charsLead p (p ++ rest) = true := by
  induction p with
  | nil => rfl
  | cons a as ih => simp [charsLead, ih]

/-- A leading occurrence is in particular an occurrence. -/
theorem listHasSub_of_lead (p l : List Char) (h : charsLead p l = true) :
    listHasSub p l = true := by
  cases l with
  | nil => simpa [listHasSub] using h
  | cons c cs => simp [listHasSub, h]

/-! ### Lemmas about the `readWorkspaceFile` scanning loop -/

/-- While capture is off, lines that do not start with the opening token are
ignored. -/
theorem readWorkspaceAux_no_open (path : String) :
    ∀ pre rest : List String, (∀ l ∈ pre, strStartsWith l "use (" = false) →
      readWorkspaceAux path false (pre ++ rest) = readWorkspaceAux path false rest := by
  intro pre
  induction pre with
  | nil => intro rest _; rfl
  | cons l ls ih =>
    intro rest h
    have hl := h l (List.mem_cons_self l ls)
    have hrec := ih rest (fun x hx => h x (List.mem_cons_of_mem l hx))
    simpa [readWorkspaceAux, hl] using hrec

/-- With capture on, a line containing `')'` is skipped (capture stays on). -/
theorem readWorkspaceAux_skip (path l : String) (rest : List String)
    (hc : strContainsChar l ')' = true) :
    readWorkspaceAux path true (l :: rest) = readWorkspaceAux path true rest := by
  simp [readWorkspaceAux, hc, ite_self]

/-- With capture on, a line without `')'` is captured. -/
theorem readWorkspaceAux_take (path l : String) (rest : List String)
    (hc : strContainsChar l ')' = false) :
    readWorkspaceAux path true (l :: rest) =
      filepathJoin path (strTrim l) :: readWorkspaceAux path true rest := by
  simp [readWorkspaceAux, hc]

/-- With capture on, scanning `interior ++ [closeLine]` yields exactly the
interior lines free of `')'`, trimmed and joined with the root path. -/
theorem readWorkspaceAux_capture (path closeLine : String)
    (hclose : strContainsChar closeLine ')' = true) :
    ∀ interior : List String,
      readWorkspaceAux path true (interior ++ [closeLine]) =
        (interior.filter (fun l => !(strContainsChar l ')'))).map
          (fun l => filepathJoin path (strTrim l)) := by
  intro interior
  induction interior with
  | nil => simpa using readWorkspaceAux_skip path closeLine [] hclose
  | cons l ls ih =>
    by_cases hc : strContainsChar l ')' = true
    · rw [List.cons_append, readWorkspaceAux_skip path l (ls ++ [closeLine]) hc, ih]
      simp [List.filter_cons, hc]
    · have hc' : strContainsChar l ')' = false := by
        cases hcv : strContainsChar l ')' with
        | false => rfl
        | true => exact absurd hcv hc
      rw [List.cons_append, readWorkspaceAux_take path l (ls ++ [closeLine]) hc', ih]
      simp [List.filter_cons, hc']

/-- C1 counterexample: in the well-formed block
`use (` / `a)b` / `c` / `)`, the interior line `a)b` contains a `')'`; the
code does not return an entry for it, so the parse result is not the full
list of trimmed interior lines joined with the root. -/
theorem C1_counterexample :
    readWorkspaceFile "/w" ["use (", "a)b", "c", ")"] = ["/w/c"] ∧
      ["/w/c"] ≠ ["/w/a)b", "/w/c"] := by
  exact ⟨by decide, by decide⟩

/-- C1 (amended): for a descriptor of the form
`pre ++ [openLine] ++ interior ++ [closeLine]` where no earlier line starts
with `use (`, `openLine` starts with `use (` and `closeLine` contains `')'`,
parsing returns exactly those whitespace-trimmed interior lines that do not
contain a `')'` character, in file order, each joined with the descriptor's
directory path — blank interior lines included; interior lines containing
`')'` are skipped (without ending the capture). -/
theorem C1_use_block_members (path openLine closeLine : String)
    (pre interior : List String)
    (hpre : ∀ l ∈ pre, strStartsWith l "use (" = false)
    (hopen : strStartsWith openLine "use (" = true)
    (hclose : strContainsChar closeLine ')' = true) :
    readWorkspaceFile path (pre ++ openLine :: (interior ++ [closeLine])) =
      (interior.filter (fun l => !(strContainsChar l ')'))).map
        (fun l => filepathJoin path (strTrim l)) := by
  unfold readWorkspaceFile
  rw [readWorkspaceAux_no_open path pre (openLine :: (interior ++ [closeLine])) hpre]
  have hstep : readWorkspaceAux path false (openLine :: (interior ++ [closeLine])) =
      readWorkspaceAux path true (interior ++ [closeLine]) := by
    simp [readWorkspaceAux, hopen]
  rw [hstep]
  exact readWorkspaceAux_capture path closeLine hclose interior

/-- C1 witness: a concrete descriptor with a leading `go` line, a blank
line, a tabbed entry, a blank interior line, an interior line containing
`')'` and a padded entry. -/
theorem C1_witness :
    readWorkspaceFile "/w" ["go 1.21", "", "use (", "\ta", "", "b)c", "  d ", ")"] =
      ["/w/a", "/w", "/w/d"] := by
  have h := C1_use_block_members "/w" "use (" ")" ["go 1.21", ""]
    ["\ta", "", "b)c", "  d "] (by decide) (by decide) (by decide)
  exact h.trans (by decide)

/-- C9: a descriptor none of whose lines contains the opening token `use (`
parses to an empty member list (and the code surfaces no error on this
path). -/
theorem C9_missing_open_token (path : String) (lines : List String)
    (h : ∀ l ∈ lines, strHasSub l "use (" = false) :
    readWorkspaceFile path lines = [] := by
  have h' : ∀ l ∈ lines, strStartsWith l "use (" = false := by
    intro l hl
    cases hs : strStartsWith l "use (" with
    | false => rfl
    | true =>
      have hoc : strHasSub l "use (" = true := listHasSub_of_lead _ _ hs
      rw [h l hl] at hoc
      exact absurd hoc (by decide)
  have hrun := readWorkspaceAux_no_open path lines [] h'
  simpa [readWorkspaceFile] using hrun

/-- C9 witness: a descriptor whose lines never contain `use (`. -/
theorem C9_witness : readWorkspaceFile "/w" ["go 1.21", "", "u se (", ")"] = [] :=
  C9_missing_open_token "/w" ["go 1.21", "", "u se (", ")"] (by decide)

/-! ### Lemmas about workspace discovery -/

/-- The discovery loop returns the first directory of its walk chain that
contains a `go.work` entry, at every fuel. -/
theorem getWorkspacePathsAux_eq_find (fs : GoFS) :
    ∀ (fuel : Nat) (path : String),
      getWorkspacePathsAux fs fuel path =
        (match (walkChain fuel path).find? fs.hasWorkFile with
          | some d => (d, some (readWorkspaceFile d (fs.workLines d)))
          | none => ("", none)) := by
  intro fuel
  induction fuel with
  | zero => intro path; rfl
  | succ n ih =>
    intro path
    rw [getWorkspacePathsAux, walkChain, List.find?]
    cases hw : fs.hasWorkFile path with
    | true => simp [hw]
    | false =>
      by_cases hp : goLen (filepathDir path) = 1
      · simp [hw, hp, List.find?]
      · simp [hw, hp, ih]

/-- C2 counterexample: with a filesystem whose only `go.work` entry lives in
the root directory `/`, discovery started at `/a` — whose parent, hence
nearest ancestor containing `go.work`, is `/` — returns the empty root and
nil member list instead of `/` and its members. -/
theorem C2_counterexample :
    getWorkspacePaths fsRootOnly "/a" = ("", none) ∧
      fsRootOnly.hasWorkFile "/" = true ∧ filepathDir "/a" = "/" := by
  exact ⟨by decide, by decide, by decide⟩

/-- C2 (amended): discovery starting at `cwd` examines exactly the chain
`cwd`, `Dir cwd`, `Dir (Dir cwd)`, … truncated before any parent whose path
has byte length 1 — on Unix the filesystem root `/`, which is therefore
examined only when it is the starting directory — and returns the first
directory of that chain containing an entry named `go.work`, paired with
the parsed member list of that file; when no directory of the chain
contains one (in particular even when the root itself does), it returns an
empty root path and a nil member list. -/
theorem C2_discovery_walk (fs : GoFS) (cwd : String) :
    getWorkspacePaths fs cwd =
      (match (searchChain cwd).find? fs.hasWorkFile with
        | some d => (d, some (readWorkspaceFile d (fs.workLines d)))
        | none => ("", none)) :=
  getWorkspacePathsAux_eq_find fs (goLen cwd + 1) cwd

/-! ### Summary-line formatting -/

/-- C3: the summary line of a record is chosen by total and by the error
and failed counts — zero total gives the skipped icon and no counts; a
positive total with errors or failures gives the failure icon with both
counts printed; a positive total with neither gives the success icon and no
error or failed counts. -/
theorem C3_status_icons (ta : testAnalysis) (labelLen : Nat) :
    (ta.testExec.total = 0 →
      printSummary ta labelLen = iconSkipped ++ " " ++ padLeft labelLen ta.label ++ "\n") ∧
    (0 < ta.testExec.total → (0 < ta.testExec.errors ∨ 0 < ta.testExec.failed) →
      printSummary ta labelLen = iconFailure ++ " " ++ padLeft labelLen ta.label ++ "  " ++
        padLeft 3 (toString ta.testExec.total) ++ " tests (" ++
        formatDurationAsSeconds ta.testExec.elapsedMillis ++ ") (" ++
        toString ta.testExec.errors ++ " errors) (" ++
        toString ta.testExec.failed ++ " failed)\n") ∧
    (0 < ta.testExec.total → ta.testExec.errors = 0 → ta.testExec.failed = 0 →
      printSummary ta labelLen = iconSuccess ++ " " ++ padLeft labelLen ta.label ++ "  " ++
        padLeft 3 (toString ta.testExec.total) ++ " tests (" ++
        formatDurationAsSeconds ta.testExec.elapsedMillis ++ ")\n") := by
  refine ⟨?_, ?_, ?_⟩
  · intro h
    rw [printSummary, if_pos h]
  · intro h1 h2
    rw [printSummary, if_neg (by omega), if_pos h2]
  · intro h1 h2 h3
    rw [printSummary, if_neg (by omega), if_neg (by omega)]

/-- C3 witness: a skipped, a failing and a passing record, with the three
concrete lines fully evaluated. -/
theorem C3_witness :
    printSummary ⟨⟨0, 0, 0, 0⟩, "p"⟩ 3 = "\x1b[33m∅\x1b[0m   p\n" ∧
      printSummary ⟨⟨2, 1, 1, 1500⟩, "p"⟩ 3 =
        "\x1b[31m✖\x1b[0m   p    2 tests (1.500s) (1 errors) (1 failed)\n" ∧
      printSummary ⟨⟨2, 0, 0, 1500⟩, "p"⟩ 3 = "\x1b[32m✓\x1b[0m   p    2 tests (1.500s)\n" := by
  refine ⟨((C3_status_icons ⟨⟨0, 0, 0, 0⟩, "p"⟩ 3).1 rfl).trans (by decide),
    ((C3_status_icons ⟨⟨2, 1, 1, 1500⟩, "p"⟩ 3).2.1 (by decide)
      (Or.inl (by decide))).trans (by decide),
    ((C3_status_icons ⟨⟨2, 0, 0, 1500⟩, "p"⟩ 3).2.2 (by decide) rfl rfl).trans (by decide)⟩

/-! ### Analyzer failure -/

/-- C5: when the external structured-output scan fails, `analyzeTest`
panics (`log.Panic`, modelled as `none`): it yields neither a record nor an
error value — its Go signature has no error result at all. -/
theorem C5_scan_error_panics (scan : String → Option Execution)
    (wPath path output : String) (h : scan output = none) :
    analyzeTest scan wPath path output = none := by
  simp [analyzeTest, h]

/-- C5 witness: a scanner that rejects its input. -/
theorem C5_witness : analyzeTest (fun _ => none) "/w" "/w/a" "" = none :=
  C5_scan_error_panics (fun _ => none) "/w" "/w/a" "" rfl

/-! ### Fan-out/fan-in invariant -/

/-- Any complete run of the fan-out from a state ends with the drained
channel holding the already-sent records plus one record per then-pending
worker, up to permutation, and every then-pending worker's record must have
been produced (a panicking worker kills the process, so no complete run
passes through it). -/
theorem execRun_results (f : String → Option testAnalysis)
    (st : List String × List testAnalysis) (results : List testAnalysis)
    (h : Relation.ReflTransGen (execStep f) st ([], results)) :
    List.Perm results (st.2 ++ st.1.filterMap f) ∧ ∀ p ∈ st.1, (f p).isSome = true := by
  induction h using Relation.ReflTransGen.head_induction_on with
  | refl => exact ⟨by simp, by simp⟩
  | head hstep htail ih =>
    cases hstep with
    | send pre post sent p r hfp =>
      constructor
      · have hmid : List.Perm ((sent ++ [r]) ++ (pre ++ post).filterMap f)
            (sent ++ (pre ++ p :: post).filterMap f) := by
          rw [List.filterMap_append, List.filterMap_append,
            List.filterMap_cons_some hfp]
          simp only [List.append_assoc, List.singleton_append]
          exact List.Perm.append_left sent List.perm_middle.symm
        exact ih.1.trans hmid
      · intro q hq
        rcases List.mem_append.mp hq with hq' | hq'
        · exact ih.2 q (List.mem_append.mpr (Or.inl hq'))
        · rcases List.mem_cons.mp hq' with heq | hq''
          · subst heq; simp [hfp]
          · exact ih.2 q (List.mem_append.mpr (Or.inr hq''))

/-- When every element is mapped to `some`, `filterMap` preserves length. -/
theorem filterMap_length_of_isSome {α β : Type} (f : α → Option β) :
    ∀ l : List α, (∀ a ∈ l, (f a).isSome = true) → (l.filterMap f).length = l.length := by
  intro l
  induction l with
  | nil => intro _; rfl
  | cons a as ih =>
    intro h
    rcases Option.isSome_iff_exists.mp (h a (List.mem_cons_self a as)) with ⟨b, hb⟩
    rw [List.filterMap_cons_some hb, List.length_cons, List.length_cons,
      ih (fun x hx => h x (List.mem_cons_of_mem a hx))]

/-- C4: every complete run of the `execAllTests` fan-out over a path list
produces exactly one record per member path — the result list has the same
length as the path list and is, up to the arbitrary completion order, the
list of records computed from the paths — whatever bytes each subprocess
produced (`output` is arbitrary, which covers swallowed subprocess
failures). -/
theorem C4_one_record_per_path (scan : String → Option Execution) (wPath : String)
    (output : String → String) (paths : List String) (results : List testAnalysis)
    (hrun : execAllTestsRun (fun p => analyzeTest scan wPath p (output p)) paths results) :
    results.length = paths.length ∧
      List.Perm results
        (paths.filterMap (fun p => analyzeTest scan wPath p (output p))) := by
  have h := execRun_results (fun p => analyzeTest scan wPath p (output p))
    (paths, []) results hrun
  have hperm : List.Perm results
      (paths.filterMap (fun p => analyzeTest scan wPath p (output p))) := by
    simpa using h.1
  exact ⟨hperm.length_eq.trans (filterMap_length_of_isSome _ paths h.2), hperm⟩

/-- C4 witness: a one-path workspace with a concrete scanner and output. -/
theorem C4_witness :
    ([⟨⟨2, 0, 1, 3⟩, "a"⟩] : List testAnalysis).length = (["/w/a"] : List String).length ∧
      List.Perm [(⟨⟨2, 0, 1, 3⟩, "a"⟩ : testAnalysis)]
        (["/w/a"].filterMap (fun p => analyzeTest scanFix "/w" p (outFix p))) := by
  refine C4_one_record_per_path scanFix "/w" outFix ["/w/a"] [⟨⟨2, 0, 1, 3⟩, "a"⟩] ?_
  exact Relation.ReflTransGen.single
    (execStep.send [] [] [] "/w/a" ⟨⟨2, 0, 1, 3⟩, "a"⟩ (by decide))

/-! ### Label comparison and sorting -/

/-- Case characterisation of the lexicographic comparison. -/
theorem charsLe_cons (a b : Char) (as bs : List Char) :
    charsLe (a :: as) (b :: bs) = true ↔ (a < b ∨ (a = b ∧ charsLe as bs = true)) := by
  rw [charsLe]
  by_cases h1 : a < b
  · simp [h1]
  · by_cases h2 : a = b
    · subst h2
      simp [h1]
    · have h2' : (a == b) = false := by simpa using h2
      simp [h1, h2', h2]

/-- The comparison is total. -/
theorem charsLe_total : ∀ x y : List Char, charsLe x y = true ∨ charsLe y x = true := by
  intro x
  induction x with
  | nil => intro y; exact Or.inl rfl
  | cons a as ih =>
    intro y
    cases y with
    | nil => exact Or.inr rfl
    | cons b bs =>
      rcases lt_trichotomy a b with h | h | h
      · exact Or.inl ((charsLe_cons a b as bs).mpr (Or.inl h))
      · subst h
        rcases ih bs with h' | h'
        · exact Or.inl ((charsLe_cons a a as bs).mpr (Or.inr ⟨rfl, h'⟩))
        · exact Or.inr ((charsLe_cons a a bs as).mpr (Or.inr ⟨rfl, h'⟩))
      · exact Or.inr ((charsLe_cons b a bs as).mpr (Or.inl h))

/-- The comparison is transitive. -/
theorem charsLe_trans : ∀ x y z : List Char, charsLe x y = true → charsLe y z = true →
    charsLe x z = true := by
  intro x
  induction x with
  | nil => intro y z _ _; rfl
  | cons a as ih =>
    intro y z hxy hyz
    cases y with
    | nil => exact absurd hxy (by simp [charsLe])
    | cons b bs =>
      cases z with
      | nil => exact absurd hyz (by simp [charsLe])
      | cons c cs =>
        rcases (charsLe_cons a b as bs).mp hxy with hab | ⟨hab, hab'⟩ <;>
          rcases (charsLe_cons b c bs cs).mp hyz with hbc | ⟨hbc, hbc'⟩
        · exact (charsLe_cons a c as cs).mpr (Or.inl (lt_trans hab hbc))
        · exact (charsLe_cons a c as cs).mpr (Or.inl (hbc ▸ hab))
        · exact (charsLe_cons a c as cs).mpr (Or.inl (hab ▸ hbc))
        · exact (charsLe_cons a c as cs).mpr (Or.inr ⟨hab.trans hbc, ih bs cs hab' hbc'⟩)

/-- C6: `printResults` presents the records sorted by label in ascending
lexicographic order and presents each input record exactly once; in
particular labels `b`, `a`, `c` are presented as `a`, `b`, `c`. -/
theorem C6_sorted_by_label (results : List testAnalysis) :
    List.Sorted (fun a b => labelLe a b = true) (printResults results) ∧
      List.Perm (printResults results) results ∧
      printResults [⟨⟨1, 0, 0, 0⟩, "b"⟩, ⟨⟨1, 0, 0, 0⟩, "a"⟩, ⟨⟨1, 0, 0, 0⟩, "c"⟩] =
        [⟨⟨1, 0, 0, 0⟩, "a"⟩, ⟨⟨1, 0, 0, 0⟩, "b"⟩, ⟨⟨1, 0, 0, 0⟩, "c"⟩] := by
  refine ⟨?_, List.perm_insertionSort _ results, by decide⟩
  haveI : IsTotal testAnalysis (fun a b => labelLe a b = true) :=
    ⟨fun a b => charsLe_total a.label.toList b.label.toList⟩
  haveI : IsTrans testAnalysis (fun a b => labelLe a b = true) :=
    ⟨fun a b c => charsLe_trans a.label.toList b.label.toList c.label.toList⟩
  exact List.sorted_insertionSort _ results

/-! ### Column width -/

/-- The running maximum of `getMaxLabel` dominates its seed and every label
length it has seen. -/
theorem maxLabel_fold_bounds :
    ∀ (rs : List testAnalysis) (acc : Nat),
      acc ≤ List.foldl (fun maxLen ta => if maxLen < goLen ta.label then goLen ta.label
          else maxLen) acc rs ∧
        ∀ ta ∈ rs, goLen ta.label ≤ List.foldl (fun maxLen ta =>
          if maxLen < goLen ta.label then goLen ta.label else maxLen) acc rs := by
  intro rs
  induction rs with
  | nil => intro acc; exact ⟨le_refl acc, by simp⟩
  | cons hd tl ih =>
    intro acc
    constructor
    · refine le_trans ?_ (ih (if acc < goLen hd.label then goLen hd.label else acc)).1
      split <;> omega
    · intro ta hta
      rcases List.mem_cons.mp hta with heq | hmem
      · subst heq
        refine le_trans ?_ (ih (if acc < goLen ta.label then goLen ta.label else acc)).1
        split <;> omega
      · exact (ih _).2 ta hmem

/-- The running maximum of `getMaxLabel` is its seed or some seen label
length. -/
theorem maxLabel_fold_mem :
    ∀ (rs : List testAnalysis) (acc : Nat),
      List.foldl (fun maxLen ta => if maxLen < goLen ta.label then goLen ta.label
          else maxLen) acc rs = acc ∨
        ∃ ta ∈ rs, List.foldl (fun maxLen ta => if maxLen < goLen ta.label then goLen ta.label
          else maxLen) acc rs = goLen ta.label := by
  intro rs
  induction rs with
  | nil => intro acc; exact Or.inl rfl
  | cons hd tl ih =>
    intro acc
    rw [List.foldl_cons]
    by_cases hc : acc < goLen hd.label
    · rw [if_pos hc]
      rcases ih (goLen hd.label) with h | ⟨ta, hta, h⟩
      · exact Or.inr ⟨hd, List.mem_cons_self hd tl, h⟩
      · exact Or.inr ⟨ta, List.mem_cons_of_mem hd hta, h⟩
    · rw [if_neg hc]
      rcases ih acc with h | ⟨ta, hta, h⟩
      · exact Or.inl h
      · exact Or.inr ⟨ta, List.mem_cons_of_mem hd hta, h⟩

/-- C7: for a non-empty record list the computed column width strictly
dominates every label length and equals the length of some (hence the
longest) label plus one. -/
theorem C7_max_label_width (results : List testAnalysis) (hne : results ≠ []) :
    (∀ ta ∈ results, goLen ta.label + 1 ≤ getMaxLabel results) ∧
      ∃ ta ∈ results, getMaxLabel results = goLen ta.label + 1 := by
  constructor
  · intro ta hta
    have hb := (maxLabel_fold_bounds results 0).2 ta hta
    unfold getMaxLabel
    omega
  · rcases maxLabel_fold_mem results 0 with h0 | ⟨ta, hta, h⟩
    · cases results with
      | nil => exact absurd rfl hne
      | cons hd tl =>
        refine ⟨hd, List.mem_cons_self hd tl, ?_⟩
        have hb := (maxLabel_fold_bounds (hd :: tl) 0).2 hd (List.mem_cons_self hd tl)
        unfold getMaxLabel
        omega
    · exact ⟨ta, hta, by unfold getMaxLabel; omega⟩

/-- C7 witness: labels of lengths 3, 7 and 1 give column width 8. -/
theorem C7_witness :
    getMaxLabel [⟨⟨1, 0, 0, 0⟩, "abc"⟩, ⟨⟨1, 0, 0, 0⟩, "abcdefg"⟩, ⟨⟨1, 0, 0, 0⟩, "x"⟩] = 8 ∧
      ((∀ ta ∈ [(⟨⟨1, 0, 0, 0⟩, "abc"⟩ : testAnalysis), ⟨⟨1, 0, 0, 0⟩, "abcdefg"⟩,
          ⟨⟨1, 0, 0, 0⟩, "x"⟩], goLen ta.label + 1 ≤
          getMaxLabel [⟨⟨1, 0, 0, 0⟩, "abc"⟩, ⟨⟨1, 0, 0, 0⟩, "abcdefg"⟩, ⟨⟨1, 0, 0, 0⟩, "x"⟩]) ∧
        ∃ ta ∈ [(⟨⟨1, 0, 0, 0⟩, "abc"⟩ : testAnalysis), ⟨⟨1, 0, 0, 0⟩, "abcdefg"⟩,
          ⟨⟨1, 0, 0, 0⟩, "x"⟩],
          getMaxLabel [⟨⟨1, 0, 0, 0⟩, "abc"⟩, ⟨⟨1, 0, 0, 0⟩, "abcdefg"⟩,
            ⟨⟨1, 0, 0, 0⟩, "x"⟩] = goLen ta.label + 1) := by
  exact ⟨by decide, C7_max_label_width _ (by decide)⟩

/-! ### Label computation -/

/-- Rebuilding a string from its character list is the identity. -/
theorem mk_toList (s : String) : (⟨s.toList⟩ : String) = s := by
  cases s
  rfl

/-- String append acts as list append on the character lists. -/
theorem toList_append (a b : String) : (a ++ b).toList = a.toList ++ b.toList := by
  cases a
  cases b
  rfl

/-- C8: the label of a member path below the workspace root is the member
path relativised to the root: joining a relative member entry onto the root
and then stripping the root prefix gives the entry back. -/
theorem C8_label_relativized (wPath sub : String) (hw : wPath ≠ "") (hs : sub ≠ "") :
    removeRelativePath wPath (filepathJoin wPath sub) = sub := by
  have hjoin : filepathJoin wPath sub = wPath ++ "/" ++ sub := by
    rw [filepathJoin, if_neg hw, if_neg hs]
  have hdata : (wPath ++ "/" ++ sub).toList = (wPath.toList ++ ['/']) ++ sub.toList := by
    rw [toList_append, toList_append]
    rfl
  have hne : wPath ++ "/" ++ sub ≠ wPath := by
    intro h
    have hlen := congrArg (fun s : String => s.toList.length) h
    simp only [hdata, List.length_append, List.length_cons, List.length_nil] at hlen
    omega
  have hlead : charsLead (wPath.toList ++ ['/']) (wPath ++ "/" ++ sub).toList = true := by
    rw [hdata]
    exact charsLead_append _ _
  rw [hjoin, removeRelativePath, filepathRel, if_neg hne, if_pos hlead, hdata]
  have hlen : wPath.toList.length + 1 = (wPath.toList ++ ['/']).length := by
    simp
  rw [hlen, List.drop_left, mk_toList]

/-- C8 witness: relativising a joined member path. -/
theorem C8_witness : removeRelativePath "/w" (filepathJoin "/w" "a/b") = "a/b" :=
  C8_label_relativized "/w" "a/b" (by decide) (by decide)

/-! ### Failure banner -/

/-- Truncating division by two is negative exactly on arguments at most
minus two. -/
theorem tdiv_two_neg_iff (x : Int) : Int.tdiv x 2 < 0 ↔ x ≤ -2 := by
  cases x with
  | ofNat m =>
    have h : Int.tdiv (Int.ofNat m) 2 = Int.ofNat (m / 2) := rfl
    rw [h, Int.ofNat_eq_natCast, Int.ofNat_eq_natCast]
    omega
  | negSucc m =>
    have h : Int.tdiv (Int.negSucc m) 2 = -Int.ofNat ((m + 1) / 2) := rfl
    rw [h, Int.negSucc_eq, Int.ofNat_eq_natCast]
    omega

/-- C10: for a failing record, `printFailedDetail` panics (the negative
`strings.Repeat` count, modelled as `none`) exactly when the label is 82 or
more bytes long, and prints the banner for labels of 81 bytes or fewer. -/
theorem C10_banner_panic (dump : Execution → String) (ta : testAnalysis)
    (hfail : 0 < ta.testExec.errors ∨ 0 < ta.testExec.failed) :
    (82 ≤ goLen ta.label → printFailedDetail dump ta = none) ∧
      (goLen ta.label ≤ 81 → (printFailedDetail dump ta).isSome = true) := by
  constructor
  · intro h82
    have hneg : Int.tdiv (80 - (goLen ta.label : Int)) 2 < 0 :=
      (tdiv_two_neg_iff _).mpr (by omega)
    simp only [printFailedDetail]
    rw [if_pos hfail, if_pos hneg]
  · intro h81
    have hpos : ¬ Int.tdiv (80 - (goLen ta.label : Int)) 2 < 0 := by
      rw [tdiv_two_neg_iff]
      omega
    simp only [printFailedDetail]
    rw [if_pos hfail, if_neg hpos]
    rfl

/-- C10 witness: a failing record with an 82-byte label panics; one with an
81-byte label prints. -/
theorem C10_witness :
    printFailedDetail (fun _ => "D") ⟨⟨2, 0, 1, 3⟩, ⟨List.replicate 82 'a'⟩⟩ = none ∧
      (printFailedDetail (fun _ => "D") ⟨⟨2, 0, 1, 3⟩, ⟨List.replicate 81 'a'⟩⟩).isSome
        = true := by
  exact ⟨(C10_banner_panic (fun _ => "D") ⟨⟨2, 0, 1, 3⟩, ⟨List.replicate 82 'a'⟩⟩
      (Or.inr (by decide))).1 (by decide),
    (C10_banner_panic (fun _ => "D") ⟨⟨2, 0, 1, 3⟩, ⟨List.replicate 81 'a'⟩⟩
      (Or.inr (by decide))).2 (by decide)⟩

end Repotest
